import Mathlib

/-!
Verification of the AES-CTR streaming cipher facade (`@libp2p/aes-ctr`).

Bytes are modelled as `Nat` (meaningful values `< 256`).  The AES block
primitive is out of scope for the repository (spec §1), so every theorem is
parameterised by an opaque block-encryption function
`E : List Nat → List Nat → List Nat` (key → 16-byte counter block → 16-byte
key-stream block).
-/

/-- Error kinds raised by `create` (from `errors.ts`, which defines
`InvalidKeyLengthError`, and the spec's `InvalidIVLength` for the IV check
performed by the cipher construction). `InvalidKeyLength` carries the
message built in `cipher-mode.ts`. -/
inductive CipherError where
  | InvalidKeyLength (message : String)
  | InvalidIVLength
deriving DecidableEq, Repr

/-- Embedding of `cipherMode` from `src/cipher-mode.ts`: keys of length 16
map to the string "aes-128-ctr", length 32 to "aes-256-ctr"; any other
length throws `InvalidKeyLengthError` with a message carrying the offending
length and the accepted lengths, rendered exactly as the source renders
`Object.entries(CIPHER_MODES)` joined by " / ". -/
def cipherMode (key : List Nat) : Except CipherError String :=
  if key.length = 16 then
    Except.ok "aes-128-ctr"
  else if key.length = 32 then
    Except.ok "aes-256-ctr"
  else
    Except.error (CipherError.InvalidKeyLength
      ("Invalid key length " ++ toString key.length ++
        " bytes. Must be 16 (aes-128-ctr) / 32 (aes-256-ctr)"))

/-- Modelled from the spec: the 16-byte big-endian counter increment of the
Counter Block component (spec §4.2); the code realising it lives in the
repository's `ciphers.js` backends, which are not under `src/`.  Helper on
the little-endian (reversed) byte list: add one with carry. -/
def incLE : List Nat → List Nat
  | [] => []
  | b :: rest => if b = 255 then 0 :: incLE rest else (b + 1) :: rest

/-- Modelled from the spec: `increment` treats the 16 bytes as one
big-endian unsigned integer, adds 1, and wraps to all-zero on overflow
(spec §4.2). -/
def increment (counter : List Nat) : List Nat :=
  (incLE counter.reverse).reverse

/-- Value of a byte list read as a little-endian unsigned integer. -/
def bytesToNatLE : List Nat → Nat
  | [] => 0
  | b :: rest => b + 256 * bytesToNatLE rest

/-- Value of a byte list read as a big-endian unsigned integer. -/
def bytesToNatBE (l : List Nat) : Nat :=
  bytesToNatLE l.reverse

/-- Modelled from the spec: the Streaming CTR Session state (spec §3):
the captured key, the 16-byte Counter Block, and the Residual Key-Stream
Buffer of leftover key-stream bytes carried between calls.  The code
realising it lives in the repository's `ciphers.js` backends, which are not
under `src/`. -/
structure CtrSession where
  key : List Nat
  counter : List Nat
  residual : List Nat
deriving DecidableEq, Repr

/-- Modelled from the spec: transform one input byte (spec §4.4).  If the
Residual Key-Stream Buffer has an unused byte, XOR against it and consume
it; otherwise generate a fresh key-stream block `E key counter`, advance
the counter (spec §4.3), and consume the block's first byte, storing the
unused tail as the new residual.  The final case is unreachable for a real
block cipher (which always returns 16 bytes) and only totalises the model. -/
def processByte (E : List Nat → List Nat → List Nat) (s : CtrSession)
    (b : Nat) : Nat × CtrSession :=
  match s.residual with
  | k :: ks => (b ^^^ k, ⟨s.key, s.counter, ks⟩)
  | [] =>
    match E s.key s.counter with
    | k :: ks => (b ^^^ k, ⟨s.key, increment s.counter, ks⟩)
    | [] => (b, ⟨s.key, increment s.counter, []⟩)

/-- Modelled from the spec: `process` (spec §4.4) XORs the input bytes
against the session's key-stream in order — residual bytes first, then
freshly generated blocks — returning the transformed bytes and the updated
session.  Consuming the residual/new blocks a byte at a time realises the
same state machine as the spec's block-at-a-time description. -/
def process (E : List Nat → List Nat → List Nat) :
    CtrSession → List Nat → List Nat × CtrSession
  | s, [] => ([], s)
  | s, b :: rest =>
    ((processByte E s b).1 :: (process E (processByte E s b).2 rest).1,
      (process E (processByte E s b).2 rest).2)

/-- Modelled from the spec: `createCipheriv`/`createDecipheriv` of the
repository's `ciphers.js` backends (not under `src/`) construct a Streaming
CTR Session seeded with the key and the IV copied verbatim into the Counter
Block, failing with `InvalidIVLength` when the IV is not exactly 16 bytes
(spec §4.5, §6). -/
def createCipheriv (_mode : String) (key iv : List Nat) :
    Except CipherError CtrSession :=
  if iv.length = 16 then
    Except.ok ⟨key, iv, []⟩
  else
    Except.error CipherError.InvalidIVLength

/-- A cipher handle bundles the two independent sessions (from
`src/index.ts`: `cipher` drives `encrypt`, `decipher` drives `decrypt`). -/
structure AESCipher where
  encState : CtrSession
  decState : CtrSession
deriving DecidableEq, Repr

/-- Embedding of `create` from `src/index.ts`: select the mode from the key
(throwing `InvalidKeyLengthError` for bad key lengths), then construct the
cipher and decipher sessions from the same key and IV. -/
def create (key iv : List Nat) : Except CipherError AESCipher := do
  let mode ← cipherMode key
  let cipher ← createCipheriv mode key iv
  let decipher ← createCipheriv mode key iv
  pure ⟨cipher, decipher⟩

/-- Embedding of `encrypt` from `src/index.ts`: `cipher.update(data)` — run
`process` on the encrypt session, returning the ciphertext and the handle
with the encrypt session advanced. -/
def encrypt (E : List Nat → List Nat → List Nat) (c : AESCipher)
    (data : List Nat) : List Nat × AESCipher :=
  let p := process E c.encState data
  (p.1, ⟨p.2, c.decState⟩)

/-- Embedding of `decrypt` from `src/index.ts`: `decipher.update(data)` —
run `process` on the decrypt session. -/
def decrypt (E : List Nat → List Nat → List Nat) (c : AESCipher)
    (data : List Nat) : List Nat × AESCipher :=
  let p := process E c.decState data
  (p.1, ⟨c.encState, p.2⟩)

/-- Feed a list of chunks one per `encrypt` call on one handle,
concatenating the outputs. -/
def encryptChunks (E : List Nat → List Nat → List Nat) :
    AESCipher → List (List Nat) → List Nat × AESCipher
  | c, [] => ([], c)
  | c, d :: ds =>
    ((encrypt E c d).1 ++ (encryptChunks E (encrypt E c d).2 ds).1,
      (encryptChunks E (encrypt E c d).2 ds).2)

/-- Run `process` over a list of chunks on one session, keeping each
chunk's output separate. -/
def processEach (E : List Nat → List Nat → List Nat) :
    CtrSession → List (List Nat) → List (List Nat) × CtrSession
  | s, [] => ([], s)
  | s, d :: ds =>
    ((process E s d).1 :: (processEach E (process E s d).2 ds).1,
      (processEach E (process E s d).2 ds).2)

/-- Direction of a call on a cipher handle. -/
inductive Dir where
  | enc
  | dec
deriving DecidableEq, Repr

/-- Dispatch one call to the handle's matching method. -/
def applyCall (E : List Nat → List Nat → List Nat) (c : AESCipher) :
    Dir × List Nat → List Nat × AESCipher
  | (Dir.enc, d) => encrypt E c d
  | (Dir.dec, d) => decrypt E c d

/-- Run an arbitrary interleaving of encrypt/decrypt calls on one handle,
tagging each output with its direction. -/
def runCalls (E : List Nat → List Nat → List Nat) :
    AESCipher → List (Dir × List Nat) → List (Dir × List Nat) × AESCipher
  | c, [] => ([], c)
  | c, call :: rest =>
    ((call.1, (applyCall E c call).1)
        :: (runCalls E (applyCall E c call).2 rest).1,
      (runCalls E (applyCall E c call).2 rest).2)

/-- Recognise an `InvalidIVLength` failure. -/
def isInvalidIVLength : Except CipherError AESCipher → Bool
  | Except.error CipherError.InvalidIVLength => true
  | _ => false

/-- A concrete stand-in block function used only to instantiate witnesses:
XOR each counter byte with the matching key byte (any function of the right
type would do; theorems hold for every `E`). -/
def sampleE (key block : List Nat) : List Nat :=
  (List.zip block (key ++ List.replicate 16 0)).map
    (fun p => p.1 ^^^ p.2)

/-! Helper lemmas about the streaming session. -/

/-- Transforming the output byte of `processByte` through `processByte` on
the same starting state recovers the input byte and reaches the same
state: XOR with the same key-stream byte is self-inverse, and the state
transition does not depend on the data byte. -/
lemma processByte_roundtrip (E : List Nat → List Nat → List Nat)
    (s : CtrSession) (b : Nat) :
    processByte E s ((processByte E s b).1) = (b, (processByte E s b).2) := by
  cases hr : s.residual with
  | cons k ks => simp [processByte, hr, Nat.xor_cancel_right]
  | nil =>
    cases hE : E s.key s.counter with
    | nil => simp [processByte, hr, hE]
    | cons k ks => simp [processByte, hr, hE, Nat.xor_cancel_right]

/-- Feeding the ciphertext produced by `process` through `process` from the
same starting state recovers the plaintext and the same final state. -/
lemma process_roundtrip (E : List Nat → List Nat → List Nat) :
    ∀ (P : List Nat) (s : CtrSession),
      process E s ((process E s P).1) = (P, (process E s P).2)
  | [], _ => rfl
  | b :: rest, s => by
    simp [process, processByte_roundtrip E s b,
      process_roundtrip E rest (processByte E s b).2]

/-- Processing a concatenation equals processing the parts in sequence,
threading the session state. -/
lemma process_append (E : List Nat → List Nat → List Nat) :
    ∀ (xs ys : List Nat) (s : CtrSession),
      process E s (xs ++ ys)
        = ((process E s xs).1 ++ (process E (process E s xs).2 ys).1,
            (process E (process E s xs).2 ys).2)
  | [], ys, s => by simp [process]
  | x :: xs, ys, s => by
    simp [process, process_append E xs ys (processByte E s x).2]

/-- The output of `process` has the same length as its input. -/
lemma process_length (E : List Nat → List Nat → List Nat) :
    ∀ (P : List Nat) (s : CtrSession), (process E s P).1.length = P.length
  | [], _ => rfl
  | b :: rest, s => by
    simp [process, process_length E rest (processByte E s b).2]

/-- Unfolding a successful `create`: both sessions are seeded with the key
and the IV copied verbatim, with empty residual buffers. -/
lemma create_ok_states (key iv : List Nat) (c : AESCipher)
    (h : create key iv = Except.ok c) :
    c = ⟨⟨key, iv, []⟩, ⟨key, iv, []⟩⟩ := by
  unfold create createCipheriv at h
  cases hm : cipherMode key with
  | error e => rw [hm] at h; simp [Bind.bind, Except.bind] at h
  | ok m =>
    rw [hm] at h
    by_cases hiv : iv.length = 16
    · simp [hiv, Bind.bind, Except.bind, Pure.pure, Except.pure] at h
      exact h.symm
    · simp [hiv, Bind.bind, Except.bind] at h

/-- C1: feeding the chunks of a partition one per `encrypt` call on a
single handle and concatenating the outputs yields exactly the ciphertext
of one `encrypt` call on the whole concatenation from the same starting
handle (in particular, from a fresh handle with the same key and IV), and
the final handle state agrees as well; this holds for every block
function, every handle and every partition. -/
theorem encrypt_chunk_invariance (E : List Nat → List Nat → List Nat) :
    ∀ (chunks : List (List Nat)) (c : AESCipher),
      encryptChunks E c chunks = encrypt E c chunks.flatten
  | [], c => rfl
  | d :: ds, c => by
    have ih := encrypt_chunk_invariance E ds
      ⟨(process E c.encState d).2, c.decState⟩
    simp [encryptChunks, encrypt, List.flatten,
      process_append E d ds.flatten c.encState, ih]

/-- C2: on a handle built by `create` with a valid key and IV, decrypting
the ciphertext produced by encrypting P on that same handle returns P, for
every block function E. -/
theorem encrypt_decrypt_roundtrip (E : List Nat → List Nat → List Nat)
    (key iv : List Nat) (c : AESCipher) (P : List Nat)
    (h : create key iv = Except.ok c) :
    (decrypt E (encrypt E c P).2 ((encrypt E c P).1)).1 = P := by
  have hc := create_ok_states key iv c h
  subst hc
  simp [encrypt, decrypt, process_roundtrip E P]

/-- C2 witness: a concrete round trip with the test suite's key and IV
(16 bytes of 5, 16 bytes of 1) and plaintext bytes 10, 20, 30. -/
theorem encrypt_decrypt_roundtrip_witness :
    create (List.replicate 16 5) (List.replicate 16 1)
        = Except.ok ⟨⟨List.replicate 16 5, List.replicate 16 1, []⟩,
            ⟨List.replicate 16 5, List.replicate 16 1, []⟩⟩ ∧
    (decrypt sampleE
        (encrypt sampleE
          ⟨⟨List.replicate 16 5, List.replicate 16 1, []⟩,
            ⟨List.replicate 16 5, List.replicate 16 1, []⟩⟩ [10, 20, 30]).2
        ((encrypt sampleE
          ⟨⟨List.replicate 16 5, List.replicate 16 1, []⟩,
            ⟨List.replicate 16 5, List.replicate 16 1, []⟩⟩ [10, 20, 30]).1)).1
      = [10, 20, 30] :=
  ⟨rfl, encrypt_decrypt_roundtrip sampleE (List.replicate 16 5)
    (List.replicate 16 1) _ [10, 20, 30] rfl⟩

/-- C5: encrypt and decrypt preserve the length of every input on every
handle, and on empty input they return empty output. -/
theorem length_preservation (E : List Nat → List Nat → List Nat)
    (c : AESCipher) (P C : List Nat) :
    (encrypt E c P).1.length = P.length ∧
    (decrypt E c C).1.length = C.length ∧
    (encrypt E c []).1 = [] ∧ (decrypt E c []).1 = [] :=
  ⟨process_length E P c.encState, process_length E C c.decState, rfl, rfl⟩

/-- C6: `cipherMode` maps every key of length 16 to the 128-bit variant
string and every key of length 32 to the 256-bit variant string; as a Lean
function it is pure and deterministic by construction. -/
theorem cipherMode_variants (key : List Nat) :
    (key.length = 16 → cipherMode key = Except.ok "aes-128-ctr") ∧
    (key.length = 32 → cipherMode key = Except.ok "aes-256-ctr") := by
  constructor <;> intro h <;> simp [cipherMode, h]

/-- C6 witness: concrete keys of lengths 16 and 32. -/
theorem cipherMode_variants_witness :
    (List.replicate 16 (0 : Nat)).length = 16 ∧
    cipherMode (List.replicate 16 0) = Except.ok "aes-128-ctr" ∧
    (List.replicate 32 (7 : Nat)).length = 32 ∧
    cipherMode (List.replicate 32 7) = Except.ok "aes-256-ctr" :=
  ⟨by decide, (cipherMode_variants (List.replicate 16 0)).1 (by decide),
    by decide, (cipherMode_variants (List.replicate 32 7)).2 (by decide)⟩

/-- C10: `cipherMode` depends only on the key's length, never on its
contents: keys of equal length get equal results (same mode string or the
same `InvalidKeyLengthError`). -/
theorem cipherMode_length_only (k1 k2 : List Nat)
    (h : k1.length = k2.length) : cipherMode k1 = cipherMode k2 := by
  unfold cipherMode
  rw [h]

/-- C10 witness: two different 16-byte keys get the same result. -/
theorem cipherMode_length_only_witness :
    (List.replicate 16 (0 : Nat)).length = (List.replicate 16 (9 : Nat)).length ∧
    cipherMode (List.replicate 16 0) = cipherMode (List.replicate 16 9) :=
  ⟨by decide, cipherMode_length_only _ _ (by decide)⟩

/-- C4: for every key whose length is neither 16 nor 32, `create` fails
with `InvalidKeyLength`, whose message carries the offending length and
the accepted lengths with their variants. -/
theorem create_invalid_key (key iv : List Nat)
    (h16 : key.length ≠ 16) (h32 : key.length ≠ 32) :
    create key iv = Except.error (CipherError.InvalidKeyLength
      ("Invalid key length " ++ toString key.length ++
        " bytes. Must be 16 (aes-128-ctr) / 32 (aes-256-ctr)")) := by
  simp [create, cipherMode, h16, h32, Bind.bind, Except.bind]

/-- C4 witness: a 5-byte key is rejected with the message naming length 5
and the accepted lengths. -/
theorem create_invalid_key_witness :
    (List.replicate 5 (0 : Nat)).length ≠ 16 ∧
    (List.replicate 5 (0 : Nat)).length ≠ 32 ∧
    create (List.replicate 5 0) (List.replicate 16 0)
      = Except.error (CipherError.InvalidKeyLength
          "Invalid key length 5 bytes. Must be 16 (aes-128-ctr) / 32 (aes-256-ctr)") :=
  ⟨by decide, by decide, create_invalid_key _ _ (by decide) (by decide)⟩

/-- C3 counterexample: the claim quantifies over every key, but `create`
validates the key first (`cipherMode` is called before the sessions are
constructed in `src/index.ts`), so with a 5-byte key and an 8-byte IV the
failure is `InvalidKeyLength`, not `InvalidIVLength`. -/
theorem create_iv_claim_counterexample :
    isInvalidIVLength (create (List.replicate 5 0) (List.replicate 8 0))
        = false ∧
    create (List.replicate 5 0) (List.replicate 8 0)
      = Except.error (CipherError.InvalidKeyLength
          "Invalid key length 5 bytes. Must be 16 (aes-128-ctr) / 32 (aes-256-ctr)") :=
  ⟨rfl, rfl⟩

/-- C3 (amended): for every key of valid length (16 or 32 bytes) and every
IV whose length is not 16, `create` fails with `InvalidIVLength`, raised
synchronously at create time. -/
theorem create_invalid_iv (key iv : List Nat)
    (hk : key.length = 16 ∨ key.length = 32) (hiv : iv.length ≠ 16) :
    create key iv = Except.error CipherError.InvalidIVLength := by
  rcases hk with hk | hk <;>
    simp [create, cipherMode, createCipheriv, hk, hiv, Bind.bind, Except.bind]

/-- C3 witness: a valid 16-byte key with an 8-byte IV fails with
`InvalidIVLength`. -/
theorem create_invalid_iv_witness :
    ((List.replicate 16 (5 : Nat)).length = 16 ∨
      (List.replicate 16 (5 : Nat)).length = 32) ∧
    (List.replicate 8 (0 : Nat)).length ≠ 16 ∧
    create (List.replicate 16 5) (List.replicate 8 0)
      = Except.error CipherError.InvalidIVLength :=
  ⟨Or.inl (by decide), by decide,
    create_invalid_iv _ _ (Or.inl (by decide)) (by decide)⟩

/-- C7: `create` is deterministic — two handles created with identical key
and IV are equal, and encrypting identical plaintext on them yields
identical ciphertext for every block function E. -/
theorem deterministic_keystream (E : List Nat → List Nat → List Nat)
    (key iv : List Nat) (c1 c2 : AESCipher) (P : List Nat)
    (h1 : create key iv = Except.ok c1)
    (h2 : create key iv = Except.ok c2) :
    c1 = c2 ∧ (encrypt E c1 P).1 = (encrypt E c2 P).1 := by
  have h := (create_ok_states key iv c1 h1).trans
    (create_ok_states key iv c2 h2).symm
  exact ⟨h, by rw [h]⟩

/-- C7 witness: two handles from the same concrete key and IV coincide and
encrypt bytes 1, 2, 3 identically. -/
theorem deterministic_keystream_witness :
    create (List.replicate 16 5) (List.replicate 16 1)
        = Except.ok ⟨⟨List.replicate 16 5, List.replicate 16 1, []⟩,
            ⟨List.replicate 16 5, List.replicate 16 1, []⟩⟩ ∧
    (encrypt sampleE
        ⟨⟨List.replicate 16 5, List.replicate 16 1, []⟩,
          ⟨List.replicate 16 5, List.replicate 16 1, []⟩⟩ [1, 2, 3]).1
      = (encrypt sampleE
        ⟨⟨List.replicate 16 5, List.replicate 16 1, []⟩,
          ⟨List.replicate 16 5, List.replicate 16 1, []⟩⟩ [1, 2, 3]).1 :=
  ⟨rfl, (deterministic_keystream sampleE (List.replicate 16 5)
    (List.replicate 16 1) _ _ [1, 2, 3] rfl rfl).2⟩

/-- The encrypt-direction outputs of any interleaving of calls depend only
on the encrypt session's state and the encrypt calls' inputs. -/
lemma runCalls_enc_outputs (E : List Nat → List Nat → List Nat) :
    ∀ (calls : List (Dir × List Nat)) (c : AESCipher),
      ((runCalls E c calls).1.filter
          (fun x => decide (x.1 = Dir.enc))).map Prod.snd
        = (processEach E c.encState
            ((calls.filter (fun x => decide (x.1 = Dir.enc))).map Prod.snd)).1
  | [], _ => rfl
  | (Dir.enc, d) :: rest, c => by
    have ih := runCalls_enc_outputs E rest
      ⟨(process E c.encState d).2, c.decState⟩
    simp [runCalls, applyCall, encrypt, processEach] at ih ⊢
    exact ih
  | (Dir.dec, d) :: rest, c => by
    have ih := runCalls_enc_outputs E rest
      ⟨c.encState, (process E c.decState d).2⟩
    simp [runCalls, applyCall, decrypt, processEach] at ih ⊢
    exact ih

/-- The decrypt-direction outputs of any interleaving of calls depend only
on the decrypt session's state and the decrypt calls' inputs. -/
lemma runCalls_dec_outputs (E : List Nat → List Nat → List Nat) :
    ∀ (calls : List (Dir × List Nat)) (c : AESCipher),
      ((runCalls E c calls).1.filter
          (fun x => decide (x.1 = Dir.dec))).map Prod.snd
        = (processEach E c.decState
            ((calls.filter (fun x => decide (x.1 = Dir.dec))).map Prod.snd)).1
  | [], _ => rfl
  | (Dir.enc, d) :: rest, c => by
    have ih := runCalls_dec_outputs E rest
      ⟨(process E c.encState d).2, c.decState⟩
    simp [runCalls, applyCall, encrypt, processEach] at ih ⊢
    exact ih
  | (Dir.dec, d) :: rest, c => by
    have ih := runCalls_dec_outputs E rest
      ⟨c.encState, (process E c.decState d).2⟩
    simp [runCalls, applyCall, decrypt, processEach] at ih ⊢
    exact ih

/-- C8: `encrypt` mutates only the encrypt session (the decrypt session is
unchanged) and vice versa; and in any interleaving of calls on one handle
each direction's outputs equal those obtained by processing only that
direction's inputs from its own session state — no lockstep or equal call
count is required. -/
theorem session_independence (E : List Nat → List Nat → List Nat)
    (c : AESCipher) (P Q : List Nat) (calls : List (Dir × List Nat)) :
    (encrypt E c P).2.decState = c.decState ∧
    (decrypt E c Q).2.encState = c.encState ∧
    ((runCalls E c calls).1.filter
        (fun x => decide (x.1 = Dir.enc))).map Prod.snd
      = (processEach E c.encState
          ((calls.filter (fun x => decide (x.1 = Dir.enc))).map Prod.snd)).1 ∧
    ((runCalls E c calls).1.filter
        (fun x => decide (x.1 = Dir.dec))).map Prod.snd
      = (processEach E c.decState
          ((calls.filter (fun x => decide (x.1 = Dir.dec))).map Prod.snd)).1 :=
  ⟨rfl, rfl, runCalls_enc_outputs E calls c, runCalls_dec_outputs E calls c⟩

/-- A list of bytes below 256 denotes a value below 256 to its length. -/
lemma bytesToNatLE_lt : ∀ (l : List Nat), (∀ b ∈ l, b < 256) →
    bytesToNatLE l < 256 ^ l.length
  | [], _ => by simp [bytesToNatLE]
  | b :: rest, h => by
    have hb : b < 256 := h b (List.mem_cons_self b rest)
    have hr := bytesToNatLE_lt rest
      (fun x hx => h x (List.mem_cons_of_mem b hx))
    have h2 : 256 * (bytesToNatLE rest + 1) ≤ 256 * 256 ^ rest.length :=
      Nat.mul_le_mul_left 256 (Nat.succ_le_of_lt hr)
    have hp : 256 ^ (rest.length + 1) = 256 * 256 ^ rest.length := by
      rw [Nat.pow_succ, Nat.mul_comm]
    simp only [bytesToNatLE, List.length_cons, hp]
    omega

/-- Little-endian carry propagation adds one modulo the byte width. -/
lemma incLE_mod : ∀ (l : List Nat), (∀ b ∈ l, b < 256) →
    bytesToNatLE (incLE l) = (bytesToNatLE l + 1) % 256 ^ l.length
  | [], _ => by simp [incLE, bytesToNatLE]
  | b :: rest, h => by
    have hb : b < 256 := h b (List.mem_cons_self b rest)
    have hrest : ∀ x ∈ rest, x < 256 :=
      fun x hx => h x (List.mem_cons_of_mem b hx)
    have hp : 256 ^ (rest.length + 1) = 256 * 256 ^ rest.length := by
      rw [Nat.pow_succ, Nat.mul_comm]
    by_cases hb255 : b = 255
    · subst hb255
      have ih := incLE_mod rest hrest
      have e1 : incLE (255 :: rest) = 0 :: incLE rest := by simp [incLE]
      rw [e1]
      simp only [bytesToNatLE, List.length_cons, hp, ih]
      have e2 : 255 + 256 * bytesToNatLE rest + 1
          = 256 * (bytesToNatLE rest + 1) := by ring
      rw [e2, Nat.mul_mod_mul_left, Nat.zero_add]
    · have e1 : incLE (b :: rest) = (b + 1) :: rest := by simp [incLE, hb255]
      rw [e1]
      simp only [bytesToNatLE, List.length_cons, hp]
      have hr := bytesToNatLE_lt rest hrest
      have h2 : 256 * (bytesToNatLE rest + 1) ≤ 256 * 256 ^ rest.length :=
        Nat.mul_le_mul_left 256 (Nat.succ_le_of_lt hr)
      have hlt : b + 256 * bytesToNatLE rest + 1
          < 256 * 256 ^ rest.length := by omega
      rw [Nat.mod_eq_of_lt hlt]
      omega

/-- C9: incrementing the 16-byte counter block, read as a big-endian
unsigned integer, adds exactly one modulo 2^128; in particular the all-0xFF
counter wraps to the all-zero counter, as an ordinary total computation. -/
theorem counter_wraparound (c : List Nat) (hlen : c.length = 16)
    (hb : ∀ b ∈ c, b < 256) :
    bytesToNatBE (increment c) = (bytesToNatBE c + 1) % 2 ^ 128 ∧
    increment (List.replicate 16 255) = List.replicate 16 0 := by
  constructor
  · have hrev : ∀ b ∈ c.reverse, b < 256 :=
      fun b hb2 => hb b (List.mem_reverse.mp hb2)
    have h := incLE_mod c.reverse hrev
    have hlen2 : c.reverse.length = 16 := by rw [List.length_reverse, hlen]
    unfold bytesToNatBE increment
    rw [List.reverse_reverse, h, hlen2]
    norm_num
  · decide

/-- C9 witness: the all-0xFF counter satisfies the hypotheses and wraps. -/
theorem counter_wraparound_witness :
    (List.replicate 16 (255 : Nat)).length = 16 ∧
    (∀ b ∈ List.replicate 16 (255 : Nat), b < 256) ∧
    bytesToNatBE (increment (List.replicate 16 255))
      = (bytesToNatBE (List.replicate 16 255) + 1) % 2 ^ 128 :=
  ⟨by decide, by decide,
    (counter_wraparound (List.replicate 16 255) (by decide) (by decide)).1⟩
